import Mathlib

/-!
Shallow embedding of `build_cv.py`: output-path selection (`output_path_for_today`
and the collision branch of `main`), the `MergingArrowsFlowable` diagram geometry
(column heights, vertical stacking, connector anchor lookup), markup escaping
(`_escape_text`), and input-label markup composition (`_prepare_inputs` /
`_draw_input_nodes`).

Numbers that are Python floats in the source are modelled as rationals; the
filesystem is modelled as the finite list of file names existing in the output
directory.
-/

namespace BuildCV

/-- A file name produced or tested by `build_cv.py`: the dated base name
`executive_cv_<date>.pdf`, a suffixed variant `executive_cv_<date>_<k>.pdf`,
an archive copy `<timestamp>_<name>` placed in the archive directory, or any
other name.  Distinct constructors model the syntactically distinct strings
these formats produce. -/
inductive FileName where
  | base (dateTag : String)
  | suffixed (dateTag : String) (k : Nat)
  | archived (timestamp : String) (original : FileName)
  | other (s : String)
deriving DecidableEq

/-- The `while` loop of `output_path_for_today` (src lines 54-59): starting at
suffix `k`, return the first suffix whose dated file is absent from the
filesystem `fs`.  `fuel` bounds the search; with `fuel = fs.length + 1` a free
suffix is always found before the fuel runs out. -/
def find_free_suffix (fs : List FileName) (d : String) : Nat → Nat → Nat
  | 0, k => k
  | fuel + 1, k =>
      if FileName.suffixed d k ∈ fs then find_free_suffix fs d fuel (k + 1) else k

/-- `output_path_for_today` (src lines 47-59): the dated base name if that file
is absent, otherwise the first free positive suffix counting up from 1.
`fs` is the list of files existing in the output directory, `d` the date tag. -/
def output_path_for_today (fs : List FileName) (d : String) : FileName :=
  if FileName.base d ∈ fs then
    FileName.suffixed d (find_free_suffix fs d (fs.length + 1) 1)
  else
    FileName.base d

/-- Result of the output-selection step of `main`: the chosen output path and
the archive copy made, if any. -/
structure MainRun where
  output : FileName
  archiveCopy : Option FileName
deriving DecidableEq

/-- Src lines 849-853 of `main`: choose the output path with
`output_path_for_today`; if a file already exists at that path, copy it to a
timestamp-prefixed name in the archive directory, then (over)write the output
path.  `ts` is the timestamp string. -/
def main_output_step (fs : List FileName) (d ts : String) : MainRun :=
  if output_path_for_today fs d ∈ fs then
    ⟨output_path_for_today fs d,
      some (FileName.archived ts (output_path_for_today fs d))⟩
  else
    ⟨output_path_for_today fs d, none⟩

/-- `self.top_padding` in `MergingArrowsFlowable.__init__`. -/
def top_padding : ℚ := 8

/-- `self.bottom_padding`. -/
def bottom_padding : ℚ := 8

/-- `self.input_gap`. -/
def input_gap : ℚ := 22

/-- `self.output_gap`. -/
def output_gap : ℚ := 26

/-- `self.left_x`. -/
def left_x : ℚ := 0

/-- `self.input_box_width`. -/
def input_box_width : ℚ := 152

/-- `MergingArrowsFlowable._compute_input_height` (src lines 464-469), applied
to the list of processed block heights: 0 for an empty column, otherwise the
sum of heights plus `input_gap` between consecutive blocks. -/
def compute_input_height (hs : List ℚ) : ℚ :=
  if hs = [] then 0 else hs.sum + input_gap * ((hs.length - 1 : ℕ) : ℚ)

/-- `MergingArrowsFlowable._compute_output_height` (src lines 471-476). -/
def compute_output_height (hs : List ℚ) : ℚ :=
  if hs = [] then 0 else hs.sum + output_gap * ((hs.length - 1 : ℕ) : ℚ)

/-- `self.diagram_height = max(input_height_total, output_height_total)`
(src line 373), as a function of the two columns of block heights. -/
def diagram_height (ins outs : List ℚ) : ℚ :=
  max (compute_input_height ins) (compute_output_height outs)

/-- `self.height = top_padding + diagram_height + bottom_padding`
(src line 374): the total height of the flowable. -/
def flowable_height (ins outs : List ℚ) : ℚ :=
  top_padding + diagram_height ins outs + bottom_padding

/-- `start_top` of `_build_input_nodes` (src line 513). -/
def input_start_top (ins outs : List ℚ) : ℚ :=
  flowable_height ins outs - top_padding
    - (diagram_height ins outs - compute_input_height ins) / 2

/-- `start_top` of `_build_output_nodes` (src line 537). -/
def output_start_top (ins outs : List ℚ) : ℚ :=
  flowable_height ins outs - top_padding
    - (diagram_height ins outs - compute_output_height outs) / 2

/-- The stacking loop shared by `_build_input_nodes` (src lines 515-531) and
`_build_output_nodes` (src lines 539-550): walk the block heights in order,
place each block's vertical center at `current top - height / 2`, and advance
the running top by `height + gap`.  Returns the list of
`(center, height)` pairs in source order. -/
def stackNodes (gap : ℚ) : ℚ → List ℚ → List (ℚ × ℚ)
  | _, [] => []
  | top, h :: rest => (top - h / 2, h) :: stackNodes gap (top - h - gap) rest

/-- `_build_input_nodes`, reduced to the geometric content: the positioned
`(center, height)` pairs of the input column. -/
def build_input_nodes (ins outs : List ℚ) : List (ℚ × ℚ) :=
  stackNodes input_gap (input_start_top ins outs) ins

/-- `_build_output_nodes`, reduced to the geometric content. -/
def build_output_nodes (ins outs : List ℚ) : List (ℚ × ℚ) :=
  stackNodes output_gap (output_start_top ins outs) outs

/-- `input_right = self.left_x + self.input_box_width` (src line 631): the x
coordinate of every connector start anchor (the input column's right edge). -/
def input_right : ℚ := left_x + input_box_width

/-- An input node as seen by `_draw_connections` (built by
`_build_input_nodes`): its connector key, its label, and the y coordinate of
its vertical center. -/
structure DInput where
  key : String
  label : String
  anchorY : ℚ
deriving DecidableEq

/-- A node registers the string `s` in the connector anchor map when `s` is
non-empty (Python `if not key: continue`) and equals the node's key or its
label. -/
def registers (n : DInput) (s : String) : Prop :=
  s ≠ "" ∧ (n.key = s ∨ n.label = s)

instance (n : DInput) (s : String) : Decidable (registers n s) := by
  unfold registers
  infer_instance

/-- A Python-dict assignment `m[k] = v`, as a pointwise function update. -/
def dict_insert (m : String → Option (ℚ × ℚ)) (k : String) (v : ℚ × ℚ) :
    String → Option (ℚ × ℚ) :=
  fun s => if s = k then some v else m s

/-- The body of the `for node in inputs` loop of `_draw_connections`
(src lines 633-638): insert the node's key and label (each skipped when
empty) mapping to the node's right-edge anchor point. -/
def register_node (m : String → Option (ℚ × ℚ)) (n : DInput) :
    String → Option (ℚ × ℚ) :=
  let m1 := if n.key = "" then m else dict_insert m n.key (input_right, n.anchorY)
  if n.label = "" then m1 else dict_insert m1 n.label (input_right, n.anchorY)

/-- `input_map` of `_draw_connections` after the registration loop: a dict
built by inserting every input node's key and label in input order (later
assignments overwrite earlier ones). -/
def anchor_map (inputs : List DInput) : String → Option (ℚ × ℚ) :=
  inputs.foldl register_node (fun _ => none)

/-- Whether `_draw_connections` draws a curve for the source reference `s`:
`start = input_map.get(source_label)` followed by `if not start: continue`
(src lines 643-646). -/
def curve_drawn (inputs : List DInput) (s : String) : Bool :=
  (anchor_map inputs s).isSome

/-- The number of connector curves drawn for one output node's `sources`
list: one `_draw_curve` call per reference found in the anchor map. -/
def curves_for_sources (inputs : List DInput) (sources : List String) : Nat :=
  (sources.filter (fun s => curve_drawn inputs s)).length

/-- `xml.sax.saxutils.escape` on a single character: `&`, `<` and `>` become
entities, every other character (quotes included) passes through unchanged.
The sequential `str.replace` passes of the library function are equivalent to
this character-wise map because `&` is replaced first and no replacement
reintroduces `<` or `>`. -/
def escape_char (c : Char) : List Char :=
  if c = '&' then ['&', 'a', 'm', 'p', ';']
  else if c = '<' then ['&', 'l', 't', ';']
  else if c = '>' then ['&', 'g', 't', ';']
  else [c]

/-- Character-list version of `escape`. -/
def escape_list : List Char → List Char
  | [] => []
  | c :: cs => escape_char c ++ escape_list cs

/-- `xml.sax.saxutils.escape` with default arguments. -/
def escape (s : String) : String := String.mk (escape_list s.data)

/-- `MergingArrowsFlowable._escape_text` (src lines 485-487):
`escape(text or "")`, which on a string argument equals `escape(text)`. -/
def escape_text (s : String) : String := escape s

/-- An input entry as normalized by `_normalize_inputs`: a label, an optional
badge and bullet strings.  A missing or empty badge is falsy in Python. -/
structure RawInput where
  label : String
  badge : Option String
  bullets : List String
deriving DecidableEq

/-- Python `x or d` for an optional string `x`: the default when `x` is
`None` or empty. -/
def py_or (o : Option String) (d : String) : String :=
  match o with
  | none => d
  | some s => if s = "" then d else s

/-- The label markup composed when measuring an input block in
`_prepare_inputs` (src lines 399-400): the badge, or the placeholder `"0"`
when the badge is falsy, then `". "`, then the escaped label. -/
def measure_label_markup (e : RawInput) : String :=
  escape_text (py_or e.badge "0") ++ ". " ++ escape_text e.label

/-- The label markup composed when drawing an input node in
`_draw_input_nodes` (src lines 569-570): the badge, or the 1-based ordinal
`str(idx + 1)` when the badge is falsy, then `". "`, then the escaped label. -/
def draw_label_markup (idx : Nat) (e : RawInput) : String :=
  escape_text (py_or e.badge (Nat.repr (idx + 1))) ++ ". " ++ escape_text e.label

/-- The search loop of `output_path_for_today`: as long as some free suffix
lies within the fuel window, the loop returns a free suffix no smaller than
its starting point, and every smaller suffix it passed over was occupied. -/
theorem find_free_suffix_spec (fs : List FileName) (d : String) :
    ∀ fuel k, (∃ j, k ≤ j ∧ j < k + fuel ∧ FileName.suffixed d j ∉ fs) →
      FileName.suffixed d (find_free_suffix fs d fuel k) ∉ fs ∧
      k ≤ find_free_suffix fs d fuel k ∧
      ∀ j, k ≤ j → j < find_free_suffix fs d fuel k → FileName.suffixed d j ∈ fs := by
  intro fuel
  induction fuel with
  | zero =>
    intro k hex
    obtain ⟨j, hj1, hj2, _⟩ := hex
    omega
  | succ fuel ih =>
    intro k hex
    by_cases hk : FileName.suffixed d k ∈ fs
    · have hex1 : ∃ j, k + 1 ≤ j ∧ j < (k + 1) + fuel ∧ FileName.suffixed d j ∉ fs := by
        obtain ⟨j, hj1, hj2, hj3⟩ := hex
        have hjk : j ≠ k := by
          intro h
          exact hj3 (h ▸ hk)
        exact ⟨j, by omega, by omega, hj3⟩
      have hrec := ih (k + 1) hex1
      simp only [find_free_suffix, if_pos hk]
      refine ⟨hrec.1, by omega, ?_⟩
      intro j hj1 hj2
      by_cases hjk : j = k
      · exact hjk ▸ hk
      · exact hrec.2.2 j (by omega) hj2
    · simp only [find_free_suffix, if_neg hk]
      exact ⟨hk, Nat.le_refl k, fun j h1 h2 => by omega⟩

/-- A finite filesystem cannot occupy all of the first `fs.length + 1`
positive suffixes for a given date tag. -/
theorem exists_free_suffix (fs : List FileName) (d : String) :
    ∃ j, 1 ≤ j ∧ j < fs.length + 2 ∧ FileName.suffixed d j ∉ fs := by
  by_contra hall
  push_neg at hall
  have hsub : (List.range (fs.length + 1)).map (fun i => FileName.suffixed d (i + 1)) ⊆ fs := by
    intro x hx
    simp only [List.mem_map, List.mem_range] at hx
    obtain ⟨i, hi, rfl⟩ := hx
    exact hall (i + 1) (by omega) (by omega)
  have hnd : ((List.range (fs.length + 1)).map (fun i => FileName.suffixed d (i + 1))).Nodup := by
    refine List.Nodup.map ?_ (List.nodup_range _)
    intro a b hab
    simp only [FileName.suffixed.injEq, true_and] at hab
    omega
  have hlen := (List.subperm_of_subset hnd hsub).length_le
  simp only [List.length_map, List.length_range] at hlen
  omega

/-- The path chosen by `output_path_for_today` never exists in `fs`. -/
theorem output_path_not_mem (fs : List FileName) (d : String) :
    output_path_for_today fs d ∉ fs := by
  unfold output_path_for_today
  by_cases hb : FileName.base d ∈ fs
  · simp only [if_pos hb]
    obtain ⟨j, hj1, hj2, hj3⟩ := exists_free_suffix fs d
    exact (find_free_suffix_spec fs d (fs.length + 1) 1 ⟨j, hj1, by omega, hj3⟩).1
  · simp only [if_neg hb]
    exact hb

/-- When the dated base name is occupied, `output_path_for_today` returns the
smallest free positive suffix. -/
theorem output_path_of_mem (fs : List FileName) (d : String)
    (hb : FileName.base d ∈ fs) :
    ∃ k, 0 < k ∧ output_path_for_today fs d = FileName.suffixed d k ∧
      FileName.suffixed d k ∉ fs ∧
      ∀ j, 0 < j → j < k → FileName.suffixed d j ∈ fs := by
  obtain ⟨j, hj1, hj2, hj3⟩ := exists_free_suffix fs d
  have hspec := find_free_suffix_spec fs d (fs.length + 1) 1 ⟨j, hj1, by omega, hj3⟩
  refine ⟨find_free_suffix fs d (fs.length + 1) 1, by omega, ?_, hspec.1, ?_⟩
  · unfold output_path_for_today
    simp only [if_pos hb]
  · intro i hi1 hi2
    exact hspec.2.2 i (by omega) hi2

/-- Since the chosen output path never exists, the collision branch of `main`
is never taken: the step always returns the fresh path and no archive copy. -/
theorem main_step_eq (fs : List FileName) (d ts : String) :
    main_output_step fs d ts = ⟨output_path_for_today fs d, none⟩ := by
  unfold main_output_step
  simp only [if_neg (output_path_not_mem fs d)]

/-- C9: for every filesystem state, `output_path_for_today` returns a path
that does not exist — the dated base name if that file is absent, otherwise
the same name with the smallest positive integer suffix whose file is absent
— so the archive-and-overwrite branch in `main` is never taken and each run
writes a previously unused file name. -/
theorem output_path_fresh (fs : List FileName) (d ts : String) :
    output_path_for_today fs d ∉ fs ∧
    (FileName.base d ∉ fs → output_path_for_today fs d = FileName.base d) ∧
    (FileName.base d ∈ fs →
      ∃ k, 0 < k ∧ output_path_for_today fs d = FileName.suffixed d k ∧
        ∀ j, 0 < j → j < k → FileName.suffixed d j ∈ fs) ∧
    (main_output_step fs d ts).archiveCopy = none := by
  refine ⟨output_path_not_mem fs d, ?_, ?_, ?_⟩
  · intro hb
    unfold output_path_for_today
    simp only [if_neg hb]
  · intro hb
    obtain ⟨k, hk, heq, _, hmin⟩ := output_path_of_mem fs d hb
    exact ⟨k, hk, heq, hmin⟩
  · rw [main_step_eq]

theorem output_path_fresh_witness :
    output_path_for_today [FileName.base "20260101"] "20260101" ∉
        [FileName.base "20260101"] ∧
    (∃ k, 0 < k ∧
        output_path_for_today [FileName.base "20260101"] "20260101"
          = FileName.suffixed "20260101" k ∧
        ∀ j, 0 < j → j < k →
          FileName.suffixed "20260101" j ∈ [FileName.base "20260101"]) ∧
    (main_output_step [FileName.base "20260101"] "20260101" "20260101-120000").archiveCopy
      = none :=
  ⟨(output_path_fresh [FileName.base "20260101"] "20260101" "20260101-120000").1,
   (output_path_fresh [FileName.base "20260101"] "20260101" "20260101-120000").2.2.1
     (by decide),
   (output_path_fresh [FileName.base "20260101"] "20260101" "20260101-120000").2.2.2⟩

/-- C1 counterexample: with the dated target `executive_cv_20260101.pdf`
already present, a run makes no archive copy and does not write at that same
dated path — it writes at the suffixed path instead, contradicting the claim
that the old artifact is archived and the target path overwritten. -/
theorem main_no_archive_cex :
    FileName.base "20260101" ∈ [FileName.base "20260101"] ∧
    (main_output_step [FileName.base "20260101"] "20260101" "20260101-120000").archiveCopy
      = none ∧
    (main_output_step [FileName.base "20260101"] "20260101" "20260101-120000").output
      ≠ FileName.base "20260101" := by
  decide

/-- C1 (amended): if an artifact with the dated base name already exists when
a render run starts, the run neither archives nor overwrites it; the run
selects the smallest positive integer suffix whose dated file name is absent
and writes the new document at that fresh path, taking no archive branch. -/
theorem main_collision_behavior (fs : List FileName) (d ts : String)
    (hb : FileName.base d ∈ fs) :
    (main_output_step fs d ts).archiveCopy = none ∧
    (main_output_step fs d ts).output ∉ fs ∧
    ∃ k, 0 < k ∧ (main_output_step fs d ts).output = FileName.suffixed d k ∧
      ∀ j, 0 < j → j < k → FileName.suffixed d j ∈ fs := by
  rw [main_step_eq]
  obtain ⟨k, hk, heq, hfree, hmin⟩ := output_path_of_mem fs d hb
  exact ⟨rfl, output_path_not_mem fs d, k, hk, heq, hmin⟩

theorem main_collision_behavior_witness :
    FileName.base "20260101" ∈
        [FileName.base "20260101", FileName.suffixed "20260101" 1] ∧
    ((main_output_step [FileName.base "20260101", FileName.suffixed "20260101" 1]
        "20260101" "20260101-120000").archiveCopy = none ∧
      (main_output_step [FileName.base "20260101", FileName.suffixed "20260101" 1]
        "20260101" "20260101-120000").output ∉
          [FileName.base "20260101", FileName.suffixed "20260101" 1] ∧
      ∃ k, 0 < k ∧
        (main_output_step [FileName.base "20260101", FileName.suffixed "20260101" 1]
          "20260101" "20260101-120000").output = FileName.suffixed "20260101" k ∧
        ∀ j, 0 < j → j < k →
          FileName.suffixed "20260101" j ∈
            [FileName.base "20260101", FileName.suffixed "20260101" 1]) :=
  ⟨by decide,
   main_collision_behavior [FileName.base "20260101", FileName.suffixed "20260101" 1]
     "20260101" "20260101-120000" (by decide)⟩

/-- C3: for every pair of input/output node-height lists, the total flowable
height equals `max(input column total, output column total)` plus the fixed
top padding plus the fixed bottom padding; in particular the flowable height
is at least that maximum plus the fixed padding. -/
theorem flowable_height_eq (ins outs : List ℚ) :
    flowable_height ins outs
      = max (compute_input_height ins) (compute_output_height outs)
          + top_padding + bottom_padding ∧
    max (compute_input_height ins) (compute_output_height outs)
        + top_padding + bottom_padding
      ≤ flowable_height ins outs := by
  constructor
  · unfold flowable_height diagram_height
    ring
  · refine le_of_eq ?_
    unfold flowable_height diagram_height
    ring

/-- C4: for every list of node heights, the column total equals the sum of
the heights plus the inter-node gap times (count − 1), and an empty list
yields exactly 0 — for both the input column (gap 22) and the output column
(gap 26). -/
theorem column_height_spec :
    (∀ hs : List ℚ, hs ≠ [] →
        compute_input_height hs = hs.sum + input_gap * ((hs.length : ℚ) - 1) ∧
        compute_output_height hs = hs.sum + output_gap * ((hs.length : ℚ) - 1)) ∧
    compute_input_height [] = 0 ∧ compute_output_height [] = 0 := by
  refine ⟨?_, by simp [compute_input_height], by simp [compute_output_height]⟩
  intro hs h
  have h1 : 1 ≤ hs.length := List.length_pos.mpr h
  have hcast : ((hs.length - 1 : ℕ) : ℚ) = (hs.length : ℚ) - 1 := by
    push_cast [h1]
    ring
  constructor
  · unfold compute_input_height
    rw [if_neg h, hcast]
  · unfold compute_output_height
    rw [if_neg h, hcast]

theorem column_height_spec_witness :
    ([(10 : ℚ), 20] ≠ []) ∧
    (compute_input_height [(10 : ℚ), 20]
        = [(10 : ℚ), 20].sum + input_gap * (([(10 : ℚ), 20].length : ℚ) - 1) ∧
      compute_output_height [(10 : ℚ), 20]
        = [(10 : ℚ), 20].sum + output_gap * (([(10 : ℚ), 20].length : ℚ) - 1)) :=
  ⟨by decide, column_height_spec.1 [(10 : ℚ), 20] (by decide)⟩

/-- C5: for every pair of non-empty columns, each column's starting top
offset equals
`flowable height − top padding − (flowable height − top padding − bottom padding − column total) / 2`,
and the vertical slack above the column's stacked block (measured from the
diagram area's top edge) equals the slack below it (measured to the diagram
area's bottom edge) — the shorter column is centered in the taller one's
extent. -/
theorem start_top_centered (ins outs : List ℚ)
    (_hin : ins ≠ []) (_hout : outs ≠ []) :
    input_start_top ins outs
      = flowable_height ins outs - top_padding
        - (flowable_height ins outs - top_padding - bottom_padding
            - compute_input_height ins) / 2 ∧
    output_start_top ins outs
      = flowable_height ins outs - top_padding
        - (flowable_height ins outs - top_padding - bottom_padding
            - compute_output_height outs) / 2 ∧
    (flowable_height ins outs - top_padding) - input_start_top ins outs
      = (input_start_top ins outs - compute_input_height ins) - bottom_padding ∧
    (flowable_height ins outs - top_padding) - output_start_top ins outs
      = (output_start_top ins outs - compute_output_height outs) - bottom_padding := by
  refine ⟨?_, ?_, ?_, ?_⟩ <;>
    · simp only [input_start_top, output_start_top, flowable_height]
      ring

theorem start_top_centered_witness :
    ([(10 : ℚ)] ≠ [] ∧ [(5 : ℚ), 7, 9] ≠ []) ∧
    (input_start_top [(10 : ℚ)] [(5 : ℚ), 7, 9]
        = flowable_height [(10 : ℚ)] [(5 : ℚ), 7, 9] - top_padding
          - (flowable_height [(10 : ℚ)] [(5 : ℚ), 7, 9] - top_padding - bottom_padding
              - compute_input_height [(10 : ℚ)]) / 2 ∧
      output_start_top [(10 : ℚ)] [(5 : ℚ), 7, 9]
        = flowable_height [(10 : ℚ)] [(5 : ℚ), 7, 9] - top_padding
          - (flowable_height [(10 : ℚ)] [(5 : ℚ), 7, 9] - top_padding - bottom_padding
              - compute_output_height [(5 : ℚ), 7, 9]) / 2 ∧
      (flowable_height [(10 : ℚ)] [(5 : ℚ), 7, 9] - top_padding)
          - input_start_top [(10 : ℚ)] [(5 : ℚ), 7, 9]
        = (input_start_top [(10 : ℚ)] [(5 : ℚ), 7, 9]
            - compute_input_height [(10 : ℚ)]) - bottom_padding ∧
      (flowable_height [(10 : ℚ)] [(5 : ℚ), 7, 9] - top_padding)
          - output_start_top [(10 : ℚ)] [(5 : ℚ), 7, 9]
        = (output_start_top [(10 : ℚ)] [(5 : ℚ), 7, 9]
            - compute_output_height [(5 : ℚ), 7, 9]) - bottom_padding) :=
  ⟨⟨by decide, by decide⟩,
   start_top_centered [(10 : ℚ)] [(5 : ℚ), 7, 9] (by decide) (by decide)⟩

/-- Every height recorded in a stacked node list comes from the height list. -/
theorem stackNodes_height_mem (gap : ℚ) (hs : List ℚ) :
    ∀ (top : ℚ) (p : ℚ × ℚ), p ∈ stackNodes gap top hs → p.2 ∈ hs := by
  induction hs with
  | nil =>
    intro top p hp
    simp [stackNodes] at hp
  | cons h rest ih =>
    intro top p hp
    simp only [stackNodes, List.mem_cons] at hp ⊢
    rcases hp with rfl | hp
    · exact Or.inl rfl
    · exact Or.inr (ih _ p hp)

/-- Every stacked node lies entirely at or below the starting top offset:
its top edge `center + height / 2` is at most `top`. -/
theorem stackNodes_le_top (gap : ℚ) (hgap : 0 ≤ gap) (hs : List ℚ) :
    ∀ top : ℚ, (∀ h ∈ hs, 0 ≤ h) →
      ∀ p ∈ stackNodes gap top hs, p.1 + p.2 / 2 ≤ top := by
  induction hs with
  | nil =>
    intro top _ p hp
    simp [stackNodes] at hp
  | cons h rest ih =>
    intro top hnn p hp
    simp only [stackNodes, List.mem_cons] at hp
    have hh : 0 ≤ h := hnn h (List.mem_cons_self _ _)
    rcases hp with rfl | hp
    · simp only
      linarith
    · have hrec := ih (top - h - gap)
        (fun x hx => hnn x (List.mem_cons_of_mem _ hx)) p hp
      linarith

/-- C6: for every column with non-negative node heights and positive
inter-node gap, the stacking loop (place each center at
`current top − height / 2`, advance by `height + gap`) keeps the source
order — vertical centers strictly decrease down the list — and no two nodes
of the column overlap: for any earlier node `a` and later node `b`, the top
edge of `b` plus the gap is at most the bottom edge of `a`. -/
theorem stack_nodes_ordered (gap : ℚ) (hgap : 0 < gap) (hs : List ℚ) :
    ∀ top : ℚ, (∀ h ∈ hs, 0 ≤ h) →
      List.Pairwise
        (fun a b : ℚ × ℚ => b.1 < a.1 ∧ b.1 + b.2 / 2 + gap ≤ a.1 - a.2 / 2)
        (stackNodes gap top hs) := by
  induction hs with
  | nil =>
    intro top _
    simp [stackNodes]
  | cons h rest ih =>
    intro top hnn
    have hh : 0 ≤ h := hnn h (List.mem_cons_self _ _)
    have hrest : ∀ x ∈ rest, 0 ≤ x := fun x hx => hnn x (List.mem_cons_of_mem _ hx)
    simp only [stackNodes]
    refine List.Pairwise.cons ?_ (ih _ hrest)
    intro b hb
    have hbtop := stackNodes_le_top gap (le_of_lt hgap) rest (top - h - gap) hrest b hb
    have hb2 : 0 ≤ b.2 := hrest b.2 (stackNodes_height_mem gap rest _ b hb)
    constructor
    · linarith
    · linarith

theorem stack_nodes_ordered_witness :
    (0 : ℚ) < 22 ∧ (∀ h ∈ [(10 : ℚ), 20, 0], 0 ≤ h) ∧
    List.Pairwise
      (fun a b : ℚ × ℚ => b.1 < a.1 ∧ b.1 + b.2 / 2 + 22 ≤ a.1 - a.2 / 2)
      (stackNodes 22 100 [(10 : ℚ), 20, 0]) :=
  ⟨by norm_num, by decide,
   stack_nodes_ordered 22 (by norm_num) [(10 : ℚ), 20, 0] 100 (by decide)⟩

/-- Registering one node makes the anchor map defined at `s` exactly when
the node registers `s` or the map was already defined there. -/
theorem register_node_isSome (m : String → Option (ℚ × ℚ)) (n : DInput) (s : String) :
    ((register_node m n) s).isSome = true ↔
      registers n s ∨ (m s).isSome = true := by
  unfold register_node dict_insert registers
  by_cases hl : n.label = "" <;> by_cases hk : n.key = "" <;>
    by_cases hsl : s = n.label <;> by_cases hsk : s = n.key <;>
      simp_all <;> tauto

/-- A node that does not register `s` leaves the map unchanged at `s`. -/
theorem register_node_skip (m : String → Option (ℚ × ℚ)) (n : DInput) (s : String)
    (h : ¬ registers n s) : (register_node m n) s = m s := by
  unfold registers at h
  push_neg at h
  unfold register_node dict_insert
  by_cases hl : n.label = "" <;> by_cases hk : n.key = "" <;>
    by_cases hsl : s = n.label <;> by_cases hsk : s = n.key <;>
      simp_all

/-- A node that registers `s` overwrites the map at `s` with its own
right-edge anchor. -/
theorem register_node_hit (m : String → Option (ℚ × ℚ)) (n : DInput) (s : String)
    (h : registers n s) : (register_node m n) s = some (input_right, n.anchorY) := by
  obtain ⟨hs, hkey⟩ := h
  unfold register_node dict_insert
  by_cases hl : n.label = "" <;> by_cases hk : n.key = "" <;>
    by_cases hsl : s = n.label <;> by_cases hsk : s = n.key <;>
      simp_all <;> tauto

/-- The anchor map built over a list of nodes is defined at `s` exactly when
some node of the list registers `s` or the initial map was defined there. -/
theorem anchor_foldl_isSome (l : List DInput) :
    ∀ (m : String → Option (ℚ × ℚ)) (s : String),
      ((l.foldl register_node m) s).isSome = true ↔
        (∃ n ∈ l, registers n s) ∨ (m s).isSome = true := by
  induction l with
  | nil =>
    intro m s
    simp
  | cons n rest ih =>
    intro m s
    rw [List.foldl_cons, ih, register_node_isSome]
    rw [List.exists_mem_cons_iff]
    constructor
    · rintro (h | h | h)
      · exact Or.inl (Or.inr h)
      · exact Or.inl (Or.inl h)
      · exact Or.inr h
    · rintro ((h | h) | h)
      · exact Or.inr (Or.inl h)
      · exact Or.inl h
      · exact Or.inr (Or.inr h)

/-- Nodes that do not register `s` leave the map unchanged at `s`. -/
theorem foldl_register_skip (l : List DInput) :
    ∀ (m : String → Option (ℚ × ℚ)) (s : String),
      (∀ n ∈ l, ¬ registers n s) → (l.foldl register_node m) s = m s := by
  induction l with
  | nil =>
    intro m s _
    rfl
  | cons n rest ih =>
    intro m s h
    rw [List.foldl_cons, ih _ s (fun x hx => h x (List.mem_cons_of_mem _ hx))]
    exact register_node_skip m n s (h n (List.mem_cons_self _ _))

/-- A curve is drawn for `s` exactly when `s` is non-empty and matches some
input node's key or label. -/
theorem curve_drawn_iff (inputs : List DInput) (s : String) :
    curve_drawn inputs s = true ↔
      s ≠ "" ∧ ∃ n ∈ inputs, n.key = s ∨ n.label = s := by
  unfold curve_drawn anchor_map
  rw [anchor_foldl_isSome]
  simp only [Option.isSome_none, Bool.false_eq_true, or_false]
  unfold registers
  constructor
  · rintro ⟨n, hn, hs, hp⟩
    exact ⟨hs, n, hn, hp⟩
  · rintro ⟨hs, n, hn, hp⟩
    exact ⟨n, hn, hs, hp⟩

/-- C10: the connector anchor map registers each input node under both its
key and its label (when non-empty), later nodes overwriting earlier entries;
so when the node `n` registers the string `s` and no node after it does,
every lookup of `s` yields `n`'s right-edge anchor `(input_right, n.anchorY)`
regardless of what earlier nodes registered. -/
theorem anchor_last_wins (before after : List DInput) (n : DInput) (s : String)
    (hreg : registers n s) (hafter : ∀ m ∈ after, ¬ registers m s) :
    anchor_map (before ++ n :: after) s = some (input_right, n.anchorY) := by
  unfold anchor_map
  rw [List.foldl_append, List.foldl_cons]
  rw [foldl_register_skip after _ s hafter]
  exact register_node_hit _ n s hreg

theorem anchor_last_wins_witness :
    registers ⟨"A", "Y", 20⟩ "A" ∧
    anchor_map [⟨"A", "X", 10⟩, ⟨"A", "Y", 20⟩] "A" = some (input_right, 20) :=
  ⟨⟨by decide, Or.inl rfl⟩,
   anchor_last_wins [⟨"A", "X", 10⟩] [] ⟨"A", "Y", 20⟩ "A"
     ⟨by decide, Or.inl rfl⟩ (by intro m hm; simp at hm)⟩

/-- C2 counterexample: an input node whose key and label are both the empty
string is never registered in the anchor map (`if not key: continue`), so a
source reference `""` that exactly matches that node's key and label still
draws 0 curves, refuting the claimed if-and-only-if. -/
theorem curve_skipped_empty_cex :
    (∃ n ∈ [(⟨"", "", 0⟩ : DInput)], n.key = "" ∨ n.label = "") ∧
    curves_for_sources [⟨"", "", 0⟩] [""] = 0 := by
  constructor
  · exact ⟨⟨"", "", 0⟩, List.mem_singleton.mpr rfl, Or.inl rfl⟩
  · rfl

/-- C2 (amended): a connector curve is drawn for a source reference exactly
when the reference is a non-empty string matching some input node's key or
label; each reference contributes 1 curve when it matches and 0 when it does
not, independently of the other references of the same output node. -/
theorem curve_count_per_reference (inputs : List DInput)
    (ss1 ss2 : List String) (s : String) :
    curves_for_sources inputs (ss1 ++ s :: ss2)
      = curves_for_sources inputs ss1
        + (if s ≠ "" ∧ ∃ n ∈ inputs, n.key = s ∨ n.label = s then 1 else 0)
        + curves_for_sources inputs ss2 := by
  unfold curves_for_sources
  rw [List.filter_append, List.length_append, List.filter_cons]
  by_cases hc : curve_drawn inputs s = true
  · rw [if_pos hc, if_pos ((curve_drawn_iff inputs s).mp hc)]
    simp only [List.length_cons]
    omega
  · rw [if_neg hc, if_neg (fun hmatch => hc ((curve_drawn_iff inputs s).mpr hmatch))]
    omega

/-- No raw angle bracket survives escaping. -/
theorem escape_list_no_angle :
    ∀ cs : List Char, ∀ c ∈ escape_list cs, c ≠ '<' ∧ c ≠ '>' := by
  intro cs
  induction cs with
  | nil =>
    intro c hc
    simp [escape_list] at hc
  | cons a rest ih =>
    intro c hc
    simp only [escape_list, List.mem_append] at hc
    rcases hc with hc | hc
    · unfold escape_char at hc
      split_ifs at hc
      · fin_cases hc <;> decide
      · fin_cases hc <;> decide
      · fin_cases hc <;> decide
      · simp only [List.mem_singleton] at hc
        subst hc
        constructor <;> assumption
    · exact ih c hc

/-- Characters outside `&`, `<`, `>` — quotes in particular — pass through
the escape unchanged. -/
theorem escape_list_id :
    ∀ cs : List Char, (∀ c ∈ cs, c ≠ '&' ∧ c ≠ '<' ∧ c ≠ '>') →
      escape_list cs = cs := by
  intro cs
  induction cs with
  | nil =>
    intro _
    rfl
  | cons a rest ih =>
    intro h
    obtain ⟨h1, h2, h3⟩ := h a (List.mem_cons_self _ _)
    simp only [escape_list, escape_char, if_neg h1, if_neg h2, if_neg h3]
    rw [ih (fun c hc => h c (List.mem_cons_of_mem _ hc))]
    rfl

/-- C7 counterexample: the double quote and the single quote are
markup-reserved per the claim, yet `_escape_text` returns each unchanged,
while it does rewrite `&`, `<` and `>` to entities — quotes are not
escaped. -/
theorem escape_quote_unchanged :
    escape_text "\"" = "\"" ∧ escape_text "\x27" = "\x27" ∧
    escape_text "&" = "&amp;" ∧ escape_text "<" = "&lt;" ∧
    escape_text ">" = "&gt;" := by
  decide

/-- C7 (amended): `_escape_text` escapes `&`, `<` and `>` before markup
composition — no raw `<` or `>` survives in the escaped text — while quote
characters are not escaped: any text free of `&`, `<` and `>` (quotes
included) passes through unchanged. -/
theorem escape_text_spec (s : String) :
    (∀ c ∈ (escape_text s).data, c ≠ '<' ∧ c ≠ '>') ∧
    ((∀ c ∈ s.data, c ≠ '&' ∧ c ≠ '<' ∧ c ≠ '>') → escape_text s = s) := by
  constructor
  · intro c hc
    exact escape_list_no_angle s.data c hc
  · intro h
    show String.mk (escape_list s.data) = s
    rw [escape_list_id s.data h]

theorem escape_text_spec_witness :
    (∀ c ∈ ("\"q\x27" : String).data, c ≠ '&' ∧ c ≠ '<' ∧ c ≠ '>') ∧
    escape_text "\"q\x27" = "\"q\x27" :=
  ⟨by decide, (escape_text_spec "\"q\x27").2 (by decide)⟩

/-- C8 counterexample: for an input entry with no badge, the markup measured
for its label block uses the placeholder `"0"` as prefix, while the markup
drawn uses the 1-based ordinal `"1"`; the two markups differ, so the default
prefix is not used consistently between measuring and drawing. -/
theorem badge_default_mismatch :
    (⟨"X", none, []⟩ : RawInput).badge = none ∧
    measure_label_markup ⟨"X", none, []⟩ = "0. X" ∧
    draw_label_markup 0 ⟨"X", none, []⟩ = "1. X" ∧
    measure_label_markup ⟨"X", none, []⟩ ≠ draw_label_markup 0 ⟨"X", none, []⟩ := by
  decide

/-- C8 (amended): an input node whose badge is missing or empty (falsy) is
drawn with its 1-based ordinal position as label prefix, but its height is
measured with the fixed placeholder prefix `"0"` instead; measuring and
drawing compose the same markup exactly when a non-empty badge is
provided. -/
theorem badge_default_behavior (e : RawInput) (idx : Nat) :
    ((e.badge = none ∨ e.badge = some "") →
      measure_label_markup e = escape_text "0" ++ ". " ++ escape_text e.label ∧
      draw_label_markup idx e
        = escape_text (Nat.repr (idx + 1)) ++ ". " ++ escape_text e.label) ∧
    (∀ b, e.badge = some b → b ≠ "" →
      measure_label_markup e = draw_label_markup idx e) := by
  constructor
  · rintro (hb | hb) <;>
      simp [measure_label_markup, draw_label_markup, py_or, hb]
  · intro b hb hbne
    simp [measure_label_markup, draw_label_markup, py_or, hb, hbne]

theorem badge_default_behavior_witness :
    (measure_label_markup ⟨"X", none, []⟩
        = escape_text "0" ++ ". " ++ escape_text "X" ∧
      draw_label_markup 2 ⟨"X", none, []⟩
        = escape_text (Nat.repr 3) ++ ". " ++ escape_text "X") ∧
    measure_label_markup ⟨"Y", some "B", []⟩
      = draw_label_markup 0 ⟨"Y", some "B", []⟩ :=
  ⟨(badge_default_behavior ⟨"X", none, []⟩ 2).1 (Or.inl rfl),
   (badge_default_behavior ⟨"Y", some "B", []⟩ 0).2 "B" rfl (by decide)⟩

end BuildCV
